import Mathlib

/-!
Shallow embedding of the Google Ads dashboard's data pipeline
(`src/ganapathi.py`): loader/merger, normalizer, `clean_text`,
keyword-summary aggregation with CTR/CPC, and the search-gap detector.

Dataframe cells are modelled by `Cell` (missing value, string, or number);
numbers are modelled by `ℚ` (exact arithmetic stands in for pandas floats,
except where float non-finiteness matters, which `PFloat` captures).
Tables are lists of rows; pandas operations become list operations, with
display sorts modelled by `List.mergeSort` (any sort is a permutation of
the unsorted groups, and none of the verified properties depend on tie
order).
-/

namespace GAds

/-- A dataframe cell: missing (NaN), a string, or a number.
Numbers are modelled by `ℚ`. -/
inductive Cell where
  | null : Cell
  | str : String → Cell
  | num : ℚ → Cell
deriving DecidableEq, Repr

/-- Models `pd.isna`: true exactly on the missing value. -/
def Cell.isna : Cell → Bool
  | .null => true
  | _ => false

/-- Models Python `str()` on a cell. The exact digit format of the numeric
representation is immaterial to every property proved below. -/
def Cell.toStr : Cell → String
  | .null => "nan"
  | .str s => s
  | .num q => toString q

/-- Parse an unsigned decimal literal (`"12"` or `"12.5"`).
Part of the model of `pd.to_numeric` on string cells. -/
def parseUnsignedNum (s : String) : Option ℚ :=
  match s.splitOn "." with
  | [w] => (w.toNat?).map (fun n => (n : ℚ))
  | [w, f] =>
    match w.toNat?, f.toNat? with
    | some n, some fr => some ((n : ℚ) + (fr : ℚ) / ((10 : ℚ) ^ f.length))
    | _, _ => none
  | _ => none

/-- Parse a signed decimal literal. Models `pd.to_numeric(errors="coerce")`
on string cells: anything unparseable becomes `none` (NaN). -/
def parseNum (s : String) : Option ℚ :=
  if s.startsWith "-" then (parseUnsignedNum (s.drop 1)).map (fun q => -q)
  else parseUnsignedNum s

/-- Models `pd.to_numeric(df[col], errors="coerce").fillna(0)`
(line 65 of the source): missing and unparseable cells become 0. -/
def Cell.toNum : Cell → ℚ
  | .null => 0
  | .num q => q
  | .str s => (parseNum s).getD 0

/-! ### Text cleaner (`clean_text`, source lines 72–79) -/

/-- ASCII whitespace, the `\s` class of Python's `re` for ASCII text
(also what `str.strip()` strips). -/
def isSpace (c : Char) : Bool :=
  c == ' ' || c == '\t' || c == '\n' || c == '\r' || c == '\x0b' || c == '\x0c'

/-- The bracket/quote characters stripped from both ends by
`re.sub(r'^[\[\]\"]+|[\[\]\"]+$', '', x)`. -/
def isBrk (c : Char) : Bool :=
  c == '[' || c == ']' || c == '"'

/-- ASCII model of Python `str.lower` on one character. -/
def lowerChar (c : Char) : Char :=
  if 65 ≤ c.toNat ∧ c.toNat ≤ 90 then Char.ofNat (c.toNat + 32) else c

/-- Strip characters satisfying `p` from both ends
(models anchored `re.sub` / `str.strip`). -/
def trimBy (p : Char → Bool) (cs : List Char) : List Char :=
  ((cs.dropWhile p).reverse.dropWhile p).reverse

/-- Models `re.sub(r'\s+', ' ', x)`: each maximal whitespace run becomes a
single space. The flag records whether the previous character was part of a
whitespace run already replaced. -/
def collapseAux : Bool → List Char → List Char
  | _, [] => []
  | prevSpace, c :: rest =>
    if isSpace c then
      if prevSpace then collapseAux true rest
      else ' ' :: collapseAux true rest
    else c :: collapseAux false rest

/-- The cleaning pipeline of `clean_text` on the character list of a
string, in source order: lowercase, strip whitespace, strip leading and
trailing bracket/quote characters, remove every `+` and strip again,
collapse whitespace runs. -/
def cleanChars (cs : List Char) : List Char :=
  collapseAux false
    (trimBy isSpace
      ((trimBy isBrk (trimBy isSpace (cs.map lowerChar))).filter (fun c => c != '+')))

/-- `clean_text` restricted to string input. -/
def cleanString (s : String) : String :=
  ⟨cleanChars s.data⟩

/-- `clean_text` (source lines 72–79): missing value becomes `""`, any
other cell is converted to its string representation and cleaned. -/
def clean_text (x : Cell) : String :=
  if x.isna then "" else cleanString x.toStr

/-! ### Rows, loader (source lines 40–49) and normalizer (lines 52–67) -/

/-- A raw merged-table row, before numeric coercion: each field is a cell.
Canonical field names follow the `rename` on lines 52–61. -/
structure RawRow where
  search_term : Cell
  keyword : Cell
  campaign : Cell
  ad_group : Cell
  match_type : Cell
  impressions : Cell
  clicks : Cell
  cost : Cell
  account : String
deriving DecidableEq, Repr

/-- A normalized row: numeric columns coerced to numbers, other cells kept. -/
structure Row where
  search_term : Cell
  keyword : Cell
  campaign : Cell
  ad_group : Cell
  match_type : Cell
  impressions : ℚ
  clicks : ℚ
  cost : ℚ
  account : String
deriving DecidableEq, Repr

/-- Numeric coercion of one row (source lines 64–65). -/
def coerceNumerics (r : RawRow) : Row :=
  { search_term := r.search_term
    keyword := r.keyword
    campaign := r.campaign
    ad_group := r.ad_group
    match_type := r.match_type
    impressions := r.impressions.toNum
    clicks := r.clicks.toNum
    cost := r.cost.toNum
    account := r.account }

/-- The normalizer (source lines 64–67): coerce numeric columns, then
`df.dropna(subset=["search_term"])`, which drops exactly the rows whose
`search_term` cell is missing. -/
def normalize (t : List RawRow) : List Row :=
  ((t.map coerceNumerics).filter (fun r => r.search_term.isna = false))

/-- One uploaded file, as the loader sees it: its name and the outcome of
`pd.read_csv(file, skiprows=2)` — either a parsed table or an error
message. The CSV byte-level parse itself is an external collaborator. -/
structure InputFile where
  name : String
  parsed : Except String (List RawRow)
deriving Repr

/-- Whether a file parsed successfully. -/
def InputFile.ok (f : InputFile) : Bool :=
  match f.parsed with
  | .ok _ => true
  | .error _ => false

/-- Tag every row of a parsed table with its source file name
(`df["account"] = file.name`, source line 44). -/
def tagAccount (name : String) (rows : List RawRow) : List RawRow :=
  rows.map (fun r => { r with account := name })

/-- The per-file errors surfaced by the loader loop (source lines 46–47):
one `(file name, message)` pair per file that failed to parse, in file
order; parsing continues with the remaining files. -/
def loadErrors (files : List InputFile) : List (String × String) :=
  files.filterMap (fun f =>
    match f.parsed with
    | .error e => some (f.name, e)
    | .ok _ => none)

/-- The successfully parsed tables, account-tagged, in file order
(`all_dfs`, source lines 40–45). -/
def loadTables (files : List InputFile) : List (List RawRow) :=
  files.filterMap (fun f =>
    match f.parsed with
    | .ok rows => some (tagAccount f.name rows)
    | .error _ => none)

/-- `pd.concat(all_dfs, ignore_index=True)` (source line 49): concatenation
preserving file order then row order. On an empty list `pd.concat` raises
`ValueError: No objects to concatenate`; that failure is the batch-level
empty-input error, modelled as the `Except` error value. -/
def mergeAll (files : List InputFile) : Except String (List RawRow) :=
  let ts := loadTables files
  if ts.isEmpty then .error "EmptyInputError" else .ok ts.flatten

/-! ### Pandas float semantics for the display ratios (lines 111–112) -/

/-- A pandas float value as far as the ratio columns are concerned:
finite, positive or negative infinity, or NaN. -/
inductive PFloat where
  | fin : ℚ → PFloat
  | inf : PFloat
  | ninf : PFloat
  | nan : PFloat
deriving DecidableEq, Repr

/-- Pandas/IEEE division of two (finite) column values: `x/0` is NaN when
`x = 0`, signed infinity otherwise. -/
def pdiv (a b : ℚ) : PFloat :=
  if b = 0 then
    if 0 < a then .inf else if a < 0 then .ninf else .nan
  else .fin (a / b)

/-- `.fillna(0)` on a float value: replaces NaN (only) by 0. -/
def PFloat.fillna0 : PFloat → PFloat
  | .nan => .fin 0
  | x => x

/-- `.replace([float("inf")], 0)`: replaces positive infinity (only) by 0. -/
def PFloat.replaceInf0 : PFloat → PFloat
  | .inf => .fin 0
  | x => x

/-- Whether a value is finite (neither infinite nor NaN). -/
def PFloat.isFinite : PFloat → Bool
  | .fin _ => true
  | _ => false

/-! ### Keyword summary (source lines 100–112) -/

/-- One row of the keyword summary. -/
structure SummaryRow where
  keyword : Cell
  total_search_terms : ℕ
  total_impressions : ℚ
  total_clicks : ℚ
  total_cost : ℚ
  CTR : PFloat
  CPC : PFloat
deriving DecidableEq, Repr

/-- The rows of one keyword group: `filtered_df.groupby("keyword")` groups
rows by equal keyword cell. -/
def groupRows (t : List Row) (k : Cell) : List Row :=
  t.filter (fun r => decide (r.keyword = k))

/-- The group keys of `groupby("keyword")`: the distinct non-missing
keyword cells (pandas drops missing keys by default). Pandas yields the
keys sorted; first-appearance order is used here, a permutation that the
subsequent `sort_values` reorders anyway. -/
def summaryKeys (t : List Row) : List Cell :=
  ((t.map Row.keyword).filter (fun c => c.isna = false)).dedup

/-- One aggregated summary row (source lines 102–112): distinct
search-term count (`nunique` ignores missing values), summed metrics, and
the two ratio columns.
`CTR = (total_clicks / total_impressions).fillna(0)` and
`CPC = (total_cost / total_clicks).replace([float("inf")], 0)`. -/
def mkSummaryRow (t : List Row) (k : Cell) : SummaryRow :=
  let g := groupRows t k
  let timp := (g.map Row.impressions).sum
  let tclk := (g.map Row.clicks).sum
  let tcost := (g.map Row.cost).sum
  { keyword := k
    total_search_terms := (((g.map Row.search_term).filter (fun c => c.isna = false)).dedup).length
    total_impressions := timp
    total_clicks := tclk
    total_cost := tcost
    CTR := (pdiv tclk timp).fillna0
    CPC := (pdiv tcost tclk).replaceInf0 }

/-- The keyword summary before the display sort. -/
def summaryUnsorted (t : List Row) : List SummaryRow :=
  (summaryKeys t).map (mkSummaryRow t)

/-- The keyword summary (source lines 100–112), sorted descending by
distinct-search-term count (`sort_values("total_search_terms",
ascending=False)`). -/
def summary (t : List Row) : List SummaryRow :=
  (summaryUnsorted t).mergeSort (fun a b => decide (b.total_search_terms ≤ a.total_search_terms))

/-! ### Gap detector (source lines 143–164) -/

/-- `set(filtered_df["keyword_clean"].unique()) - {""}` (source line 146):
the distinct cleaned keyword values, with the empty string removed. -/
def all_keywords (t : List Row) : List String :=
  ((t.map (fun r => clean_text r.keyword)).dedup).filter (fun s => s ≠ "")

/-- `set(filtered_df["search_term_clean"].unique())` (source line 147). -/
def all_search_terms (t : List Row) : List String :=
  (t.map (fun r => clean_text r.search_term)).dedup

/-- The distinct cleaned keyword values without the empty-string exclusion
(the "set of cleaned keyword values" in the spec's raw wording). -/
def cleanedKeywordVals (t : List Row) : List String :=
  (t.map (fun r => clean_text r.keyword)).dedup

/-- `uncovered_terms = all_search_terms - all_keywords` (source line 148). -/
def uncovered_terms (t : List Row) : List String :=
  (all_search_terms t).filter (fun s => decide (s ∉ all_keywords t))

/-- `uncovered_df` (source line 150): the rows whose cleaned search term
is in the uncovered set. -/
def uncovered_df (t : List Row) : List Row :=
  t.filter (fun r => decide (clean_text r.search_term ∈ uncovered_terms t))

/-- The "Full Detailed List" (source lines 172–178): the uncovered rows
sorted descending by clicks (the display also projects columns, which
does not change which rows appear). -/
def uncoveredFullList (t : List Row) : List Row :=
  (uncovered_df t).mergeSort (fun a b => decide (b.clicks ≤ a.clicks))

/-- One row of a by-search-term aggregation. -/
structure TermSummaryRow where
  search_term : Cell
  total_impressions : ℚ
  total_clicks : ℚ
  total_cost : ℚ
deriving DecidableEq, Repr

/-- Group keys for a by-search-term aggregation (distinct non-missing
search terms, pandas `groupby` semantics as for the keyword summary). -/
def termKeys (t : List Row) : List Cell :=
  ((t.map Row.search_term).filter (fun c => c.isna = false)).dedup

/-- `uncovered_summary` (source lines 155–164): the uncovered rows grouped
by raw search term with summed metrics, sorted descending by clicks then
impressions. -/
def uncovered_summary (t : List Row) : List TermSummaryRow :=
  let u := uncovered_df t
  ((termKeys u).map (fun k =>
    let g := u.filter (fun r => decide (r.search_term = k))
    { search_term := k
      total_impressions := (g.map Row.impressions).sum
      total_clicks := (g.map Row.clicks).sum
      total_cost := (g.map Row.cost).sum })).mergeSort
    (fun a b => decide (b.total_clicks < a.total_clicks ∨
      (b.total_clicks = a.total_clicks ∧ b.total_impressions ≤ a.total_impressions)))

/-- The outcome rendered by the gap section (source lines 152–178): either
the distinct "fully covered" message, or the two uncovered tables. -/
inductive GapOutcome where
  | fullyCovered : GapOutcome
  | report : List TermSummaryRow → List Row → GapOutcome
deriving DecidableEq, Repr

/-- `if uncovered_df.empty: st.info(...) else: ...` (source lines
152–178). -/
def gapOutcome (t : List Row) : GapOutcome :=
  if uncovered_df t = [] then .fullyCovered
  else .report (uncovered_summary t) (uncoveredFullList t)

/-! ### Helper lemmas about the cleaning primitives -/

/-- The last element of a list, as an `Option`. -/
def lastO {α : Type} (l : List α) : Option α := l.reverse.head?

theorem mem_dropWhile {α : Type} {p : α → Bool} {l : List α} {a : α}
    (h : a ∈ l.dropWhile p) : a ∈ l := by
  induction l with
  | nil => simp at h
  | cons x xs ih =>
    rw [List.dropWhile_cons] at h
    split at h
    · exact List.mem_cons_of_mem _ (ih h)
    · exact h

theorem mem_trimBy {p : Char → Bool} {l : List Char} {a : Char}
    (h : a ∈ trimBy p l) : a ∈ l := by
  unfold trimBy at h
  rw [List.mem_reverse] at h
  have h1 := mem_dropWhile h
  rw [List.mem_reverse] at h1
  exact mem_dropWhile h1

theorem mem_collapseAux : ∀ {b : Bool} {l : List Char} {c : Char},
    c ∈ collapseAux b l → c ∈ l ∨ c = ' ' := by
  intro b l
  induction l generalizing b with
  | nil => intro c h; simp [collapseAux] at h
  | cons x xs ih =>
    intro c h
    simp only [collapseAux] at h
    split at h
    · split at h
      · rcases ih h with h' | h'
        · exact Or.inl (List.mem_cons_of_mem _ h')
        · exact Or.inr h'
      · rcases List.mem_cons.mp h with h' | h'
        · exact Or.inr h'
        · rcases ih h' with h'' | h''
          · exact Or.inl (List.mem_cons_of_mem _ h'')
          · exact Or.inr h''
    · rcases List.mem_cons.mp h with h' | h'
      · exact Or.inl (h' ▸ List.mem_cons_self x xs)
      · rcases ih h' with h'' | h''
        · exact Or.inl (List.mem_cons_of_mem _ h'')
        · exact Or.inr h''

theorem lastO_mem {α : Type} {l : List α} {a : α} (h : lastO l = some a) : a ∈ l := by
  unfold lastO at h
  cases hrev : l.reverse with
  | nil => rw [hrev] at h; simp at h
  | cons y ys =>
    rw [hrev] at h
    simp at h
    rw [← List.mem_reverse, hrev, h]
    exact List.mem_cons_self a ys

theorem lastO_cons_of_ne_nil {α : Type} {l : List α} (a : α) (h : l ≠ []) :
    lastO (a :: l) = lastO l := by
  unfold lastO
  cases hrev : l.reverse with
  | nil => exact absurd (by simpa using congrArg List.reverse hrev) h
  | cons y ys => simp [hrev]

theorem lastO_of_ne_nil {α : Type} {l : List α} (h : l ≠ []) : ∃ a, lastO l = some a := by
  unfold lastO
  cases hrev : l.reverse with
  | nil => exact absurd (by simpa using congrArg List.reverse hrev) h
  | cons y ys => exact ⟨y, by simp⟩

theorem head?_dropWhile_false {α : Type} {p : α → Bool} {l : List α} {c : α}
    (h : (l.dropWhile p).head? = some c) : p c = false := by
  have h' := List.head?_dropWhile_not p l
  rw [h] at h'
  exact h'

theorem dropWhile_eq_self_of_head {α : Type} {p : α → Bool} {l : List α}
    (h : ∀ c, l.head? = some c → p c = false) : l.dropWhile p = l := by
  cases l with
  | nil => rfl
  | cons x xs => rw [List.dropWhile_cons, h x rfl]; simp

theorem trimBy_eq_self {p : Char → Bool} {l : List Char}
    (h1 : ∀ c, l.head? = some c → p c = false)
    (h2 : ∀ c, lastO l = some c → p c = false) : trimBy p l = l := by
  unfold trimBy
  rw [dropWhile_eq_self_of_head h1, dropWhile_eq_self_of_head (fun c hc => h2 c hc),
    List.reverse_reverse]

theorem trimBy_lastO_false {p : Char → Bool} {l : List Char} {c : Char}
    (h : lastO (trimBy p l) = some c) : p c = false := by
  unfold trimBy lastO at h
  rw [List.reverse_reverse] at h
  exact head?_dropWhile_false h

theorem trimBy_head_false {p : Char → Bool} {l : List Char} {c : Char}
    (h : (trimBy p l).head? = some c) : p c = false := by
  unfold trimBy at h
  cases hX : l.dropWhile p with
  | nil => rw [hX] at h; simp at h
  | cons a Y =>
    have ha : p a = false := head?_dropWhile_false (by rw [hX]; rfl)
    rw [hX] at h
    rw [show (a :: Y).reverse = Y.reverse ++ [a] by simp] at h
    rw [List.dropWhile_append] at h
    split at h
    · rw [List.dropWhile_cons, ha] at h
      simp at h
      rwa [← h]
    · rw [show ((Y.reverse.dropWhile p) ++ [a]).reverse = a :: (Y.reverse.dropWhile p).reverse
        by simp] at h
      simp at h
      rwa [← h]

theorem map_eq_self_of_fix {α : Type} {f : α → α} {l : List α}
    (h : ∀ a ∈ l, f a = a) : l.map f = l :=
  (List.map_congr_left h).trans (List.map_id l)

/-! ### `lowerChar` facts -/

theorem toNat_ofNat_valid {n : ℕ} (h : n < 55296) : (Char.ofNat n).toNat = n := by
  have hv : n.isValidChar := Or.inl h
  simp [Char.ofNat, hv, Char.ofNatAux, Char.toNat]
  rfl

theorem lowerChar_lowerChar (c : Char) : lowerChar (lowerChar c) = lowerChar c := by
  by_cases h : 65 ≤ c.toNat ∧ c.toNat ≤ 90
  · have hl : lowerChar c = Char.ofNat (c.toNat + 32) := by rw [lowerChar, if_pos h]
    have ht : (Char.ofNat (c.toNat + 32)).toNat = c.toNat + 32 := toNat_ofNat_valid (by omega)
    rw [hl, lowerChar, ht, if_neg (by omega)]
  · have hl : lowerChar c = c := by rw [lowerChar, if_neg h]
    rw [hl, hl]

/-! ### `collapseAux` facts -/

/-- Every whitespace character of the list is a plain space. -/
def allWsSpace (l : List Char) : Bool :=
  l.all (fun c => !(isSpace c) || c == ' ')

/-- No two adjacent characters are both whitespace. -/
def noDoubleSpace : List Char → Bool
  | [] => true
  | [_] => true
  | c₁ :: c₂ :: rest => (!(isSpace c₁) || !(isSpace c₂)) && noDoubleSpace (c₂ :: rest)

theorem collapseAux_cons_sp_t {x : Char} {xs : List Char} (hx : isSpace x = true) :
    collapseAux true (x :: xs) = collapseAux true xs := by
  simp [collapseAux, hx]

theorem collapseAux_cons_sp_f {x : Char} {xs : List Char} (hx : isSpace x = true) :
    collapseAux false (x :: xs) = ' ' :: collapseAux true xs := by
  simp [collapseAux, hx]

theorem collapseAux_cons_nsp {b : Bool} {x : Char} {xs : List Char} (hx : isSpace x = false) :
    collapseAux b (x :: xs) = x :: collapseAux false xs := by
  simp [collapseAux, hx]

theorem head?_collapseAux_true : ∀ {l : List Char} {c : Char},
    (collapseAux true l).head? = some c → isSpace c = false := by
  intro l
  induction l with
  | nil => intro c h; simp [collapseAux] at h
  | cons x xs ih =>
    intro c h
    by_cases hx : isSpace x
    · rw [collapseAux_cons_sp_t hx] at h
      exact ih h
    · rw [collapseAux_cons_nsp (by simpa using hx)] at h
      simp at h
      rw [← h]
      simpa using hx

theorem collapseAux_true_eq_false {l : List Char}
    (h : ∀ c, l.head? = some c → isSpace c = false) :
    collapseAux true l = collapseAux false l := by
  cases l with
  | nil => rfl
  | cons x xs =>
    rw [collapseAux_cons_nsp (h x rfl), collapseAux_cons_nsp (h x rfl)]

theorem head?_collapseAux_false {l : List Char}
    (h : ∀ c, l.head? = some c → isSpace c = false) :
    ∀ c, (collapseAux false l).head? = some c → isSpace c = false := by
  cases l with
  | nil => intro c hc; simp [collapseAux] at hc
  | cons x xs =>
    intro c hc
    have hx := h x rfl
    rw [collapseAux_cons_nsp hx] at hc
    simp at hc
    rw [← hc]
    exact hx

theorem collapseAux_ne_nil : ∀ {b : Bool} {l : List Char} {d : Char},
    d ∈ l → isSpace d = false → collapseAux b l ≠ [] := by
  intro b l
  induction l generalizing b with
  | nil => intro d h; simp at h
  | cons x xs ih =>
    intro d hd hds
    by_cases hx : isSpace x
    · have hdx : d ∈ xs := by
        rcases List.mem_cons.mp hd with h' | h'
        · rw [h'] at hds; rw [hds] at hx; simp at hx
        · exact h'
      cases b with
      | true =>
        rw [collapseAux_cons_sp_t hx]
        exact ih hdx hds
      | false => rw [collapseAux_cons_sp_f hx]; simp
    · rw [collapseAux_cons_nsp (by simpa using hx)]; simp

theorem lastO_collapseAux : ∀ {b : Bool} {l : List Char},
    (∀ c, lastO l = some c → isSpace c = false) →
    ∀ c, lastO (collapseAux b l) = some c → isSpace c = false := by
  intro b l
  induction l generalizing b with
  | nil => intro _ c hc; simp [collapseAux, lastO] at hc
  | cons x xs ih =>
    intro h c hc
    cases hxs : xs with
    | nil =>
      subst hxs
      have hx : isSpace x = false := h x rfl
      rw [collapseAux_cons_nsp hx] at hc
      simp [collapseAux, lastO] at hc
      rw [← hc]
      exact hx
    | cons y ys =>
      subst hxs
      have hxsne : (y :: ys : List Char) ≠ [] := by simp
      have htail : ∀ c, lastO (y :: ys) = some c → isSpace c = false := by
        intro c' hc'
        exact h c' (by rw [lastO_cons_of_ne_nil x hxsne]; exact hc')
      obtain ⟨d, hd⟩ := lastO_of_ne_nil hxsne
      have hds : isSpace d = false := htail d hd
      have hdmem : d ∈ y :: ys := lastO_mem hd
      by_cases hx : isSpace x
      · cases b with
        | true =>
          rw [collapseAux_cons_sp_t hx] at hc
          exact ih htail c hc
        | false =>
          rw [collapseAux_cons_sp_f hx] at hc
          rw [lastO_cons_of_ne_nil ' ' (collapseAux_ne_nil hdmem hds)] at hc
          exact ih htail c hc
      · rw [collapseAux_cons_nsp (by simpa using hx)] at hc
        rw [lastO_cons_of_ne_nil x (collapseAux_ne_nil hdmem hds)] at hc
        exact ih htail c hc

theorem allWsSpace_collapseAux : ∀ {b : Bool} {l : List Char},
    allWsSpace (collapseAux b l) = true := by
  intro b l
  induction l generalizing b with
  | nil => simp [collapseAux, allWsSpace]
  | cons x xs ih =>
    by_cases hx : isSpace x
    · cases b with
      | true => rw [collapseAux_cons_sp_t hx]; exact ih
      | false =>
        rw [collapseAux_cons_sp_f hx]
        simp only [allWsSpace, List.all_cons, Bool.and_eq_true]
        exact And.intro (by decide) ih
    · rw [collapseAux_cons_nsp (by simpa using hx)]
      simp only [allWsSpace, List.all_cons, Bool.and_eq_true]
      exact And.intro (by simp [hx]) ih

theorem noDoubleSpace_cons {c : Char} {l : List Char}
    (h1 : ∀ x, l.head? = some x → (isSpace c = false ∨ isSpace x = false))
    (h2 : noDoubleSpace l = true) : noDoubleSpace (c :: l) = true := by
  cases l with
  | nil => simp [noDoubleSpace]
  | cons y ys =>
    have h' := h1 y rfl
    simp only [noDoubleSpace, Bool.and_eq_true]
    constructor
    · rcases h' with h | h <;> simp [h]
    · exact h2

theorem noDoubleSpace_collapseAux : ∀ {b : Bool} {l : List Char},
    noDoubleSpace (collapseAux b l) = true := by
  intro b l
  induction l generalizing b with
  | nil => simp [collapseAux, noDoubleSpace]
  | cons x xs ih =>
    by_cases hx : isSpace x
    · cases b with
      | true => rw [collapseAux_cons_sp_t hx]; exact ih
      | false =>
        rw [collapseAux_cons_sp_f hx]
        refine noDoubleSpace_cons ?_ ih
        intro y hy
        exact Or.inr (head?_collapseAux_true hy)
    · rw [collapseAux_cons_nsp (by simpa using hx)]
      refine noDoubleSpace_cons ?_ ih
      intro y _
      exact Or.inl (by simpa using hx)

theorem allWsSpace_tail {c : Char} {l : List Char}
    (h : allWsSpace (c :: l) = true) : allWsSpace l = true := by
  simp only [allWsSpace, List.all_cons, Bool.and_eq_true] at h ⊢
  exact h.2

theorem noDoubleSpace_tail {c : Char} {l : List Char}
    (h : noDoubleSpace (c :: l) = true) : noDoubleSpace l = true := by
  cases l with
  | nil => simp [noDoubleSpace]
  | cons y ys =>
    simp only [noDoubleSpace, Bool.and_eq_true] at h
    exact h.2

theorem collapseAux_fix : ∀ {l : List Char},
    allWsSpace l = true → noDoubleSpace l = true → collapseAux false l = l := by
  intro l
  induction l with
  | nil => intro _ _; rfl
  | cons x xs ih =>
    intro hws hnd
    by_cases hx : isSpace x
    · have hxsp : x = ' ' := by
        simp only [allWsSpace, List.all_cons, Bool.and_eq_true] at hws
        have h' := hws.1
        rw [hx] at h'
        simpa using h'
      have hhead : ∀ c, xs.head? = some c → isSpace c = false := by
        intro c hc
        cases xs with
        | nil => simp at hc
        | cons y ys =>
          simp at hc
          simp only [noDoubleSpace, Bool.and_eq_true] at hnd
          have h' := hnd.1
          rw [hx] at h'
          simp at h'
          rw [← hc]
          exact h'
      rw [collapseAux_cons_sp_f hx, collapseAux_true_eq_false hhead,
        ih (allWsSpace_tail hws) (noDoubleSpace_tail hnd), hxsp]
    · rw [collapseAux_cons_nsp (by simpa using hx),
        ih (allWsSpace_tail hws) (noDoubleSpace_tail hnd)]

/-! ### Invariants of the cleaner's output and the idempotence analysis -/

theorem cleanChars_head_not_space {cs : List Char} :
    ∀ c, (cleanChars cs).head? = some c → isSpace c = false := by
  unfold cleanChars
  exact head?_collapseAux_false (fun c hc => trimBy_head_false hc)

theorem cleanChars_lastO_not_space {cs : List Char} :
    ∀ c, lastO (cleanChars cs) = some c → isSpace c = false := by
  unfold cleanChars
  exact lastO_collapseAux (fun c hc => trimBy_lastO_false hc)

theorem cleanChars_lowered {cs : List Char} :
    ∀ c ∈ cleanChars cs, lowerChar c = c := by
  intro c hc
  unfold cleanChars at hc
  rcases mem_collapseAux hc with h | rfl
  · have h1 : c ∈ cs.map lowerChar :=
      mem_trimBy (mem_trimBy (List.mem_of_mem_filter (mem_trimBy h)))
    obtain ⟨x, _, rfl⟩ := List.mem_map.mp h1
    exact lowerChar_lowerChar x
  · decide

theorem cleanChars_noPlus {cs : List Char} : '+' ∉ cleanChars cs := by
  intro hc
  unfold cleanChars at hc
  rcases mem_collapseAux hc with h | h
  · have h1 := List.of_mem_filter (mem_trimBy h)
    simp at h1
  · exact absurd h (by decide)

theorem cleanChars_allWs {cs : List Char} : allWsSpace (cleanChars cs) = true :=
  allWsSpace_collapseAux

theorem cleanChars_noDouble {cs : List Char} : noDoubleSpace (cleanChars cs) = true :=
  noDoubleSpace_collapseAux

/-- The cleaner is a fixed point on its own output, provided that output
does not begin or end with a bracket/quote character (removing `+` after
the bracket strip can expose such characters, which is exactly the
non-idempotent case). -/
theorem cleanChars_idem (cs : List Char)
    (h1 : ∀ c, (cleanChars cs).head? = some c → isBrk c = false)
    (h2 : ∀ c, lastO (cleanChars cs) = some c → isBrk c = false) :
    cleanChars (cleanChars cs) = cleanChars cs := by
  conv_lhs => rw [cleanChars]
  rw [map_eq_self_of_fix cleanChars_lowered]
  rw [trimBy_eq_self cleanChars_head_not_space cleanChars_lastO_not_space]
  rw [trimBy_eq_self h1 h2]
  rw [List.filter_eq_self.mpr (fun a ha => by
    have : a ≠ '+' := fun he => cleanChars_noPlus (he ▸ ha)
    simpa using this)]
  rw [trimBy_eq_self cleanChars_head_not_space cleanChars_lastO_not_space]
  exact collapseAux_fix cleanChars_allWs cleanChars_noDouble

/-- Whether a character list begins or ends with a bracket/quote
character. -/
def bqEnds (cs : List Char) : Bool :=
  (match cs.head? with | some c => isBrk c | none => false) ||
  (match lastO cs with | some c => isBrk c | none => false)

theorem bqEnds_false_head {cs : List Char} (h : bqEnds cs = false) :
    ∀ c, cs.head? = some c → isBrk c = false := by
  intro c hc
  unfold bqEnds at h
  rw [hc] at h
  simp at h
  exact h.1

theorem bqEnds_false_lastO {cs : List Char} (h : bqEnds cs = false) :
    ∀ c, lastO cs = some c → isBrk c = false := by
  intro c hc
  unfold bqEnds at h
  rw [hc] at h
  simp at h
  exact h.2

/-! ### Claim C3: idempotence of the text cleaner -/

/-- Claim C3, counterexample: the text cleaner is not idempotent as
claimed. On `"+[a"` the first pass removes the `+` after the
bracket-strip step has already run, leaving `"[a"`; a second pass then
strips the exposed `[` and yields `"a"`. -/
theorem clean_text_not_idempotent :
    clean_text (Cell.str (clean_text (Cell.str "+[a"))) ≠ clean_text (Cell.str "+[a") := by
  decide

/-- Claim C3 (amended): the text cleaner is idempotent on every string
whose cleaned form neither begins nor ends with a character from the
stripped set `[`, `]`, `"` — `clean(clean(s)) = clean(s)` for every such
`s`, including the empty string and already-clean strings. (The
counterexample forces exactly this restriction: a second pass differs
only when removing `+` exposed a bracket/quote at an end.) -/
theorem clean_text_idempotent_on_bq_free_output (s : String)
    (h : bqEnds (cleanString s).data = false) :
    clean_text (Cell.str (clean_text (Cell.str s))) = clean_text (Cell.str s) := by
  show cleanString (cleanString s) = cleanString s
  have hd : (cleanString s).data = cleanChars s.data := rfl
  rw [hd] at h
  show (⟨cleanChars (cleanString s).data⟩ : String) = cleanString s
  rw [hd]
  exact congrArg (fun l => (⟨l⟩ : String))
    (cleanChars_idem s.data (bqEnds_false_head h) (bqEnds_false_lastO h))

/-- Witness for C3's amended theorem at a concrete input. -/
theorem clean_text_idempotent_witness :
    bqEnds (cleanString " \"Roof+  Repair\" ").data = false ∧
    clean_text (Cell.str (clean_text (Cell.str " \"Roof+  Repair\" "))) =
      clean_text (Cell.str " \"Roof+  Repair\" ") :=
  ⟨by decide, clean_text_idempotent_on_bq_free_output " \"Roof+  Repair\" " (by decide)⟩

/-! ### Claim C10: totality of the text cleaner over non-string cells -/

/-- Claim C10: `clean_text` is total over arbitrary cells — a missing
value yields `""`, and any other cell (in particular a numeric one) is
converted to its string representation and then cleaned; the result is
always a string value, never an error. As evidence that the cleaning
steps really ran, no output ever contains a `+` character. -/
theorem clean_text_total (c : Cell) :
    (c = Cell.null → clean_text c = "") ∧
    (∀ q : ℚ, c = Cell.num q → clean_text c = cleanString (toString q)) ∧
    '+' ∉ (clean_text c).data := by
  refine ⟨?_, ?_, ?_⟩
  · intro h; subst h; rfl
  · intro q h; subst h; rfl
  · cases c with
    | null => simp [clean_text, Cell.isna]
    | str s => exact cleanChars_noPlus
    | num q => exact cleanChars_noPlus

/-- Witness for C10 at concrete inputs: the missing value and a number. -/
theorem clean_text_total_witness :
    clean_text Cell.null = "" ∧ clean_text (Cell.num 3) = cleanString (toString (3 : ℚ)) :=
  ⟨(clean_text_total Cell.null).1 rfl, (clean_text_total (Cell.num 3)).2.1 3 rfl⟩

/-! ### Claim C4: which rows the normalizer drops -/

/-- Build a raw row from a search-term and keyword cell, every other cell
missing (numeric cells then coerce to 0). -/
def mkRaw (st kw : Cell) : RawRow :=
  { search_term := st, keyword := kw, campaign := Cell.null, ad_group := Cell.null
    match_type := Cell.null, impressions := Cell.null, clicks := Cell.null
    cost := Cell.null, account := "" }

/-- A merged table with a single row whose search term is the (non-null)
empty string. -/
def tEmptyST : List RawRow := [mkRaw (Cell.str "") Cell.null]

theorem isna_false_iff {c : Cell} : c.isna = false ↔ c ≠ Cell.null := by
  cases c <;> simp [Cell.isna]

/-- Claim C4, counterexample: `df.dropna(subset=["search_term"])` drops
only rows whose search term is missing. A row whose search term is the
empty string is retained, so the normalized result does not contain
"exactly the rows with a non-null, non-empty search_term". -/
theorem normalize_keeps_empty_string_search_term :
    (normalize tEmptyST).map Row.search_term = [Cell.str ""] := by
  decide

/-- Claim C4 (amended): the normalizer drops exactly the rows whose
`search_term` is missing (null) and no others — the result consists of
the numeric-coerced versions of precisely the rows with a non-null
`search_term`; rows whose search term is the (non-null) empty string are
retained, not dropped. -/
theorem normalize_drops_exactly_null_search_term (t : List RawRow) (r : Row) :
    (r ∈ normalize t ↔ ∃ raw, raw ∈ t ∧ coerceNumerics raw = r ∧ raw.search_term ≠ Cell.null) ∧
    (normalize t).length = t.countP (fun raw => raw.search_term.isna = false) := by
  constructor
  · unfold normalize
    rw [List.mem_filter]
    constructor
    · rintro ⟨hmem, hp⟩
      obtain ⟨raw, hraw, rfl⟩ := List.mem_map.mp hmem
      refine ⟨raw, hraw, rfl, ?_⟩
      rw [← isna_false_iff]
      simpa using hp
    · rintro ⟨raw, hraw, rfl, hne⟩
      refine ⟨List.mem_map.mpr ⟨raw, hraw, rfl⟩, ?_⟩
      simpa using isna_false_iff.mpr hne
  · unfold normalize
    rw [← List.countP_eq_length_filter, List.countP_map]
    rfl

/-- Witness for C4's amended theorem: the empty-string row is retained. -/
theorem normalize_drops_exactly_null_search_term_witness :
    coerceNumerics (mkRaw (Cell.str "") Cell.null) ∈ normalize tEmptyST :=
  (normalize_drops_exactly_null_search_term tEmptyST _).1.mpr
    ⟨mkRaw (Cell.str "") Cell.null, by decide, rfl, by decide⟩

/-! ### Membership characterizations of the gap detector's sets -/

theorem mem_all_search_terms {t : List Row} {s : String} :
    s ∈ all_search_terms t ↔ ∃ r ∈ t, clean_text r.search_term = s := by
  unfold all_search_terms
  rw [List.mem_dedup, List.mem_map]

theorem mem_all_keywords {t : List Row} {s : String} :
    s ∈ all_keywords t ↔ (∃ r ∈ t, clean_text r.keyword = s) ∧ s ≠ "" := by
  unfold all_keywords
  rw [List.mem_filter, List.mem_dedup, List.mem_map]
  simp

theorem mem_uncovered_terms {t : List Row} {s : String} :
    s ∈ uncovered_terms t ↔ s ∈ all_search_terms t ∧ s ∉ all_keywords t := by
  unfold uncovered_terms
  rw [List.mem_filter]
  simp

theorem mem_uncovered_df {t : List Row} {r : Row} :
    r ∈ uncovered_df t ↔ r ∈ t ∧ clean_text r.search_term ∈ uncovered_terms t := by
  unfold uncovered_df
  rw [List.mem_filter]
  simp

theorem mem_uncoveredFullList {t : List Row} {r : Row} :
    r ∈ uncoveredFullList t ↔ r ∈ uncovered_df t :=
  (List.mergeSort_perm (uncovered_df t) _).mem_iff

/-! ### Claim C5: gap-set correctness -/

/-- Build a normalized row from a search term and keyword string, with
given metrics; the remaining cells are immaterial to the gap analysis. -/
def mkRow (st kw : String) (imp clk cst : ℚ) : Row :=
  { search_term := Cell.str st, keyword := Cell.str kw, campaign := Cell.null
    ad_group := Cell.null, match_type := Cell.null, impressions := imp
    clicks := clk, cost := cst, account := "" }

/-- The spec's two-row gap example. -/
def tGap : List Row :=
  [mkRow "free quote" "roofing quote" 0 0 0, mkRow "roof repair" "roof repair" 0 0 0]

/-- Claim C5: the uncovered set is exactly the set of cleaned search-term
values minus the set of cleaned keyword values (empty string excluded
from the keyword set); on the spec's two-row example it is exactly
`{"free quote"}`; and every row whose cleaned search term is uncovered
appears in the full detailed list. -/
theorem gap_set_correctness :
    (∀ (t : List Row) (s : String),
      s ∈ uncovered_terms t ↔
        ((∃ r ∈ t, clean_text r.search_term = s) ∧
          ¬((∃ r ∈ t, clean_text r.keyword = s) ∧ s ≠ ""))) ∧
    uncovered_terms tGap = ["free quote"] ∧
    (∀ (t : List Row) (r : Row), r ∈ t →
      clean_text r.search_term ∈ uncovered_terms t → r ∈ uncoveredFullList t) := by
  refine ⟨?_, by decide, ?_⟩
  · intro t s
    rw [mem_uncovered_terms, mem_all_search_terms, mem_all_keywords]
  · intro t r hr hs
    exact mem_uncoveredFullList.mpr (mem_uncovered_df.mpr ⟨hr, hs⟩)

/-- Witness for C5 at the spec's example: the "free quote" row is
returned in the full detailed list. -/
theorem gap_set_correctness_witness :
    mkRow "free quote" "roofing quote" 0 0 0 ∈ uncoveredFullList tGap :=
  gap_set_correctness.2.2 tGap (mkRow "free quote" "roofing quote" 0 0 0)
    (by decide) (by decide)

/-! ### Claim C9: uncovered rows are never self-covered -/

/-- Claim C9: a row of the full detailed list whose own cleaned keyword is
non-empty never has its cleaned search term equal to that keyword (it
would then be covered); and such rows — uncovered yet carrying a
non-empty keyword — do occur. -/
theorem uncovered_rows_not_self_covered :
    (∀ (t : List Row) (r : Row), r ∈ uncoveredFullList t →
      clean_text r.keyword ≠ "" → clean_text r.search_term ≠ clean_text r.keyword) ∧
    (mkRow "free quote" "roofing quote" 0 0 0 ∈ uncoveredFullList tGap ∧
      clean_text (mkRow "free quote" "roofing quote" 0 0 0).keyword ≠ "") := by
  constructor
  · intro t r hmem hkw heq
    obtain ⟨hrt, hst⟩ := mem_uncovered_df.mp (mem_uncoveredFullList.mp hmem)
    have hnk : clean_text r.search_term ∉ all_keywords t := (mem_uncovered_terms.mp hst).2
    exact hnk (mem_all_keywords.mpr ⟨⟨r, hrt, heq.symm⟩, heq ▸ hkw⟩)
  · exact ⟨mem_uncoveredFullList.mpr (by decide), by decide⟩

/-- Witness for C9 at the spec's example row. -/
theorem uncovered_rows_not_self_covered_witness :
    clean_text (mkRow "free quote" "roofing quote" 0 0 0).search_term ≠
      clean_text (mkRow "free quote" "roofing quote" 0 0 0).keyword :=
  uncovered_rows_not_self_covered.1 tGap (mkRow "free quote" "roofing quote" 0 0 0)
    (mem_uncoveredFullList.mpr (by decide)) (by decide)

/-! ### Claim C7: the "fully covered" state -/

/-- A one-row table whose search term and keyword both clean to the empty
string. -/
def tPlus : List Row := [mkRow "+" "+" 1 1 0]

/-- Claim C7, counterexample: in `tPlus` every cleaned search term is
also a cleaned keyword value, yet the detector does not signal "fully
covered" — the empty string is excluded from the keyword set, so the
lone row counts as uncovered. -/
theorem fully_covered_not_signaled_on_empty_clean :
    (∀ s ∈ all_search_terms tPlus, s ∈ cleanedKeywordVals tPlus) ∧
    gapOutcome tPlus ≠ GapOutcome.fullyCovered := by
  decide

/-- Claim C7 (amended): the gap section renders the distinct "fully
covered" state (not an empty table) exactly when every row's cleaned
search term belongs to the detector's keyword set, i.e. equals some
non-empty cleaned keyword value of the filtered table. -/
theorem gap_fully_covered_iff (t : List Row) :
    gapOutcome t = GapOutcome.fullyCovered ↔
      ∀ r ∈ t, clean_text r.search_term ∈ all_keywords t := by
  unfold gapOutcome
  by_cases h : uncovered_df t = []
  · rw [if_pos h]
    simp only [true_iff]
    intro r hr
    have hnot : r ∉ uncovered_df t := by rw [h]; simp
    have hsts : clean_text r.search_term ∈ all_search_terms t :=
      mem_all_search_terms.mpr ⟨r, hr, rfl⟩
    by_contra hkw
    exact hnot (mem_uncovered_df.mpr ⟨hr, mem_uncovered_terms.mpr ⟨hsts, hkw⟩⟩)
  · rw [if_neg h]
    constructor
    · intro habs
      exact absurd habs (by simp)
    · intro hall
      refine absurd (List.eq_nil_iff_forall_not_mem.mpr ?_) h
      intro r hru
      obtain ⟨hrt, hst⟩ := mem_uncovered_df.mp hru
      exact (mem_uncovered_terms.mp hst).2 (hall r hrt)

/-- Witness for C7's amended theorem at a concrete fully-covered table. -/
theorem gap_fully_covered_witness :
    gapOutcome [mkRow "roof repair" "roof repair" 1 1 1] = GapOutcome.fullyCovered :=
  (gap_fully_covered_iff [mkRow "roof repair" "roof repair" 1 1 1]).mpr (by decide)

/-! ### Keyword-summary lemmas -/

theorem mem_summary {t : List Row} {g : SummaryRow} :
    g ∈ summary t ↔ g ∈ summaryUnsorted t :=
  (List.mergeSort_perm (summaryUnsorted t) _).mem_iff

theorem mem_summaryKeys {t : List Row} {k : Cell} :
    k ∈ summaryKeys t ↔ (∃ r ∈ t, r.keyword = k) ∧ k ≠ Cell.null := by
  unfold summaryKeys
  rw [List.mem_dedup, List.mem_filter]
  simp only [decide_eq_true_eq, isna_false_iff, List.mem_map]

/-- Build a normalized row from arbitrary search-term and keyword cells. -/
def mkRowC (st kw : Cell) (imp clk cst : ℚ) : Row :=
  { search_term := st, keyword := kw, campaign := Cell.null
    ad_group := Cell.null, match_type := Cell.null, impressions := imp
    clicks := clk, cost := cst, account := "" }

/-! ### Claim C2: grouping of missing keywords -/

/-- A one-row table whose keyword is missing. -/
def tNullKw : List Row := [mkRowC (Cell.str "a") Cell.null 1 2 3]

/-- A one-row table whose keyword is the (non-null) empty string. -/
def tEmptyKw : List Row := [mkRowC (Cell.str "a") (Cell.str "") 1 2 3]

/-- Claim C2, counterexample: `groupby("keyword")` drops missing keys, so
a table consisting of one null-keyword row yields an empty keyword
summary — the rows are silently dropped, not grouped. -/
theorem summary_drops_null_keyword_rows :
    summary tNullKw = [] ∧ tNullKw ≠ [] ∧ tNullKw.map Row.keyword = [Cell.null] := by
  refine ⟨?_, by decide, by decide⟩
  have h : summaryUnsorted tNullKw = [] := by decide
  unfold summary
  rw [h, List.mergeSort_nil]

/-- Claim C2 (amended): rows whose keyword is null are excluded from the
keyword summary (every summary group's key comes from a non-null keyword
of some row), while every non-null keyword value — including the empty
string — gets its own group carrying the distinct-search-term count and
the summed impressions, clicks and cost of its rows. -/
theorem summary_groups_nonnull_keywords (t : List Row) :
    (∀ g ∈ summary t, (∃ r ∈ t, r.keyword = g.keyword) ∧ g.keyword ≠ Cell.null) ∧
    (∀ k : Cell, k ≠ Cell.null → (∃ r ∈ t, r.keyword = k) →
      ∃ g ∈ summary t, g.keyword = k ∧
        g.total_search_terms =
          (((groupRows t k).map Row.search_term).filter (fun c => c.isna = false)).dedup.length ∧
        g.total_impressions = ((groupRows t k).map Row.impressions).sum ∧
        g.total_clicks = ((groupRows t k).map Row.clicks).sum ∧
        g.total_cost = ((groupRows t k).map Row.cost).sum) := by
  constructor
  · intro g hg
    obtain ⟨k, hk, rfl⟩ := List.mem_map.mp (mem_summary.mp hg)
    obtain ⟨hex, hnn⟩ := mem_summaryKeys.mp hk
    exact ⟨hex, hnn⟩
  · intro k hnn hex
    refine ⟨mkSummaryRow t k, mem_summary.mpr ?_, rfl, rfl, rfl, rfl, rfl⟩
    exact List.mem_map.mpr ⟨k, mem_summaryKeys.mpr ⟨hex, hnn⟩, rfl⟩

/-- Witness for C2's amended theorem: the empty-string keyword forms its
own group in a concrete table. -/
theorem summary_groups_nonnull_keywords_witness :
    ∃ g ∈ summary tEmptyKw, g.keyword = Cell.str "" ∧
      g.total_search_terms =
        (((groupRows tEmptyKw (Cell.str "")).map Row.search_term).filter
          (fun c => c.isna = false)).dedup.length ∧
      g.total_impressions = ((groupRows tEmptyKw (Cell.str "")).map Row.impressions).sum ∧
      g.total_clicks = ((groupRows tEmptyKw (Cell.str "")).map Row.clicks).sum ∧
      g.total_cost = ((groupRows tEmptyKw (Cell.str "")).map Row.cost).sum :=
  (summary_groups_nonnull_keywords tEmptyKw).2 (Cell.str "") (by decide)
    ⟨mkRowC (Cell.str "a") (Cell.str "") 1 2 3, by decide, rfl⟩

/-! ### Claim C1: CTR/CPC non-finiteness (code bug) -/

/-- A table exhibiting both broken corner cases of the ratio columns:
keyword `k` has impressions 0 with clicks 1; keyword `k2` has clicks 0
with cost 0. -/
def tRatio : List Row :=
  [mkRowC (Cell.str "a") (Cell.str "k") 0 1 0,
   mkRowC (Cell.str "b") (Cell.str "k2") 5 0 0]

/-- Claim C1 is violated by the code: `.fillna(0)` on CTR replaces only
NaN (the 0/0 case), so a group with clicks > 0 and impressions = 0 gets
CTR = +inf; `.replace([float("inf")], 0)` on CPC replaces only +inf (the
cost > 0 case), so a group with cost = 0 and clicks = 0 keeps CPC = NaN.
The two sanitizers are each attached to the wrong ratio's failure mode. -/
theorem ctr_cpc_can_be_nonfinite :
    (∃ g ∈ summary tRatio, g.keyword = Cell.str "k" ∧ g.total_impressions = 0 ∧
      g.total_clicks = 1 ∧ g.CTR = PFloat.inf ∧ g.CTR.isFinite = false) ∧
    (∃ g ∈ summary tRatio, g.keyword = Cell.str "k2" ∧ g.total_clicks = 0 ∧
      g.total_cost = 0 ∧ g.CPC = PFloat.nan ∧ g.CPC.isFinite = false) := by
  have hg1 : groupRows tRatio (Cell.str "k") = [mkRowC (Cell.str "a") (Cell.str "k") 0 1 0] := by
    decide
  have hg2 : groupRows tRatio (Cell.str "k2") = [mkRowC (Cell.str "b") (Cell.str "k2") 5 0 0] := by
    decide
  have hs1 : mkSummaryRow tRatio (Cell.str "k") =
      { keyword := Cell.str "k", total_search_terms := 1, total_impressions := 0
        total_clicks := 1, total_cost := 0, CTR := PFloat.inf, CPC := PFloat.fin 0 } := by
    unfold mkSummaryRow
    rw [hg1]
    norm_num [mkRowC, pdiv, PFloat.fillna0, PFloat.replaceInf0, Cell.isna]
  have hs2 : mkSummaryRow tRatio (Cell.str "k2") =
      { keyword := Cell.str "k2", total_search_terms := 1, total_impressions := 5
        total_clicks := 0, total_cost := 0, CTR := PFloat.fin 0, CPC := PFloat.nan } := by
    unfold mkSummaryRow
    rw [hg2]
    norm_num [mkRowC, pdiv, PFloat.fillna0, PFloat.replaceInf0, Cell.isna]
  constructor
  · refine ⟨mkSummaryRow tRatio (Cell.str "k"),
      mem_summary.mpr (List.mem_map.mpr ⟨Cell.str "k", by decide, rfl⟩), ?_⟩
    rw [hs1]
    exact ⟨rfl, rfl, rfl, rfl, rfl⟩
  · refine ⟨mkSummaryRow tRatio (Cell.str "k2"),
      mem_summary.mpr (List.mem_map.mpr ⟨Cell.str "k2", by decide, rfl⟩), ?_⟩
    rw [hs2]
    exact ⟨rfl, rfl, rfl, rfl, rfl⟩

/-! ### Claim C8: the totals invariant -/

theorem sum_filter_eq_sum_ite (t : List Row) (p : Row → Prop) [DecidablePred p]
    (f : Row → ℚ) :
    ((t.filter (fun r => decide (p r))).map f).sum =
      (t.map (fun r => if p r then f r else 0)).sum := by
  induction t with
  | nil => rfl
  | cons x xs ih =>
    by_cases h : p x <;> simp [List.filter_cons, h, ih]

theorem sum_commute (ks : List Cell) (t : List Row) (g : Cell → Row → ℚ) :
    (ks.map (fun k => ((t.map (g k)).sum))).sum =
      (t.map (fun r => ((ks.map (fun k => g k r)).sum))).sum := by
  induction ks with
  | nil => simp
  | cons k ks ih =>
    rw [List.map_cons, List.sum_cons, ih, ← List.sum_map_add]
    simp only [List.map_cons, List.sum_cons]

theorem sum_ite_mem (ks : List Cell) (hnd : ks.Nodup) (x : Cell) (c : ℚ) :
    (ks.map (fun k => if x = k then c else 0)).sum = if x ∈ ks then c else 0 := by
  induction ks with
  | nil => simp
  | cons k ks ih =>
    obtain ⟨hk, hnd'⟩ := List.nodup_cons.mp hnd
    by_cases hxk : x = k
    · subst hxk
      have hx : x ∉ ks := hk
      rw [List.map_cons, List.sum_cons, if_pos rfl, ih hnd', if_neg hx,
        if_pos (List.mem_cons_self x ks), add_zero]
    · rw [List.map_cons, List.sum_cons, if_neg hxk, ih hnd', zero_add]
      have : (x ∈ k :: ks) ↔ (x ∈ ks) := by
        rw [List.mem_cons]
        exact or_iff_right hxk
      rw [if_congr this rfl rfl]

/-- Claim C8: the sum of `total_clicks` over the keyword summary equals
the sum of `clicks` over the rows of the same filtered table whose
keyword is non-null. -/
theorem summary_total_clicks_invariant (t : List Row) :
    ((summary t).map SummaryRow.total_clicks).sum =
      ((t.filter (fun r => decide (r.keyword ≠ Cell.null))).map Row.clicks).sum := by
  have hperm : ((summary t).map SummaryRow.total_clicks).sum =
      ((summaryUnsorted t).map SummaryRow.total_clicks).sum :=
    ((List.mergeSort_perm (summaryUnsorted t) _).map SummaryRow.total_clicks).sum_eq
  rw [hperm]
  unfold summaryUnsorted
  rw [List.map_map]
  have h1 : ((summaryKeys t).map (SummaryRow.total_clicks ∘ mkSummaryRow t)) =
      (summaryKeys t).map (fun k => ((groupRows t k).map Row.clicks).sum) :=
    List.map_congr_left (fun k _ => rfl)
  rw [h1]
  have h2 : ((summaryKeys t).map (fun k => ((groupRows t k).map Row.clicks).sum)) =
      (summaryKeys t).map (fun k =>
        (t.map (fun r => if r.keyword = k then r.clicks else 0)).sum) :=
    List.map_congr_left (fun k _ => sum_filter_eq_sum_ite t (fun r => r.keyword = k) Row.clicks)
  rw [h2, sum_commute]
  have h3 : (t.map (fun r =>
      ((summaryKeys t).map (fun k => if r.keyword = k then r.clicks else 0)).sum)) =
      t.map (fun r => if r.keyword ≠ Cell.null then r.clicks else 0) := by
    refine List.map_congr_left (fun r hr => ?_)
    rw [sum_ite_mem (summaryKeys t) (List.nodup_dedup _) r.keyword r.clicks]
    have hiff : (r.keyword ∈ summaryKeys t) ↔ (r.keyword ≠ Cell.null) := by
      rw [mem_summaryKeys]
      exact ⟨fun h => h.2, fun h => ⟨⟨r, hr, rfl⟩, h⟩⟩
    rw [if_congr hiff rfl rfl]
  rw [h3, ← sum_filter_eq_sum_ite t (fun r => r.keyword ≠ Cell.null) Row.clicks]

/-! ### Claim C6: loader resilience and the empty-input failure -/

theorem loadErrors_length (files : List InputFile) :
    (loadErrors files).length = files.countP (fun f => f.ok = false) := by
  induction files with
  | nil => rfl
  | cons f fs ih =>
    cases hp : f.parsed with
    | ok rows =>
      have hok : f.ok = true := by unfold InputFile.ok; rw [hp]
      simp [loadErrors, hp, List.countP_cons, hok] at ih ⊢
      exact ih
    | error e =>
      have hok : f.ok = false := by unfold InputFile.ok; rw [hp]
      simp [loadErrors, hp, List.countP_cons, hok] at ih ⊢
      exact ih

theorem loadTables_eq_nil_iff (files : List InputFile) :
    loadTables files = [] ↔ files.countP (fun f => f.ok) = 0 := by
  induction files with
  | nil => simp [loadTables]
  | cons f fs ih =>
    cases hp : f.parsed with
    | ok rows =>
      have hok : f.ok = true := by unfold InputFile.ok; rw [hp]
      simp [loadTables, hp, List.countP_cons, hok]
    | error e =>
      have hok : f.ok = false := by unfold InputFile.ok; rw [hp]
      simp only [loadTables, List.filterMap_cons, hp, List.countP_cons, hok]
      simpa [loadTables] using ih

/-- A three-file batch whose middle file fails to parse. -/
def files3 : List InputFile :=
  [⟨"a.csv", .ok [mkRaw (Cell.str "x") Cell.null]⟩,
   ⟨"b.csv", .error "ParserError"⟩,
   ⟨"c.csv", .ok [mkRaw (Cell.str "y") Cell.null]⟩]

/-- Claim C6: a file that fails to parse is skipped with exactly one
surfaced error per failing file while the rest are processed, and the
batch fails with the empty-input error exactly when zero files parse;
on the concrete 3-file batch with one unparseable file, exactly one
error is reported and the merge proceeds with the other two files. -/
theorem loader_skips_failures_and_fails_only_when_all_fail :
    (∀ files : List InputFile,
      (loadErrors files).length = files.countP (fun f => f.ok = false) ∧
      ((mergeAll files = Except.error "EmptyInputError") ↔
        files.countP (fun f => f.ok) = 0)) ∧
    (loadErrors files3).length = 1 ∧
    mergeAll files3 = Except.ok
      (tagAccount "a.csv" [mkRaw (Cell.str "x") Cell.null] ++
        tagAccount "c.csv" [mkRaw (Cell.str "y") Cell.null]) := by
  refine ⟨fun files => ⟨loadErrors_length files, ?_⟩, by decide, by rfl⟩
  unfold mergeAll
  by_cases h : loadTables files = []
  · rw [if_pos (by simp [h])]
    simp [loadTables_eq_nil_iff files |>.mp h]
  · rw [if_neg (by simpa using h)]
    constructor
    · intro habs
      exact absurd habs (by simp)
    · intro hcount
      exact absurd ((loadTables_eq_nil_iff files).mpr hcount) h

end GAds
